import Mathlib

/-!
Verification of the CANopenLinux platform layer: a shallow embedding of the
storage engine (CO_storageLinux.c), the CAN error monitor (CO_error.c), the
socketCAN driver (CO_driver.c), and the epoll event loop / gateway glue
(CO_epoll_interface.c), with theorems settling the specification claims.

Machine integers are modelled as Nat with explicit reduction modulo 2^w where
the C code can overflow; file and socket I/O is modelled by explicit oracle
records carrying each syscall's outcome, so every code path of the C source
is reachable in the model.
-/

namespace CANopenLinux

/-- Result codes of OD interface functions (ODR_t, only the constructors the
storage code uses: ODR_OK, ODR_OUT_OF_MEM, ODR_HW). -/
inductive ODR where
  | ok
  | outOfMem
  | hw
deriving DecidableEq, Repr

/-- Return codes CO_ReturnError_t (only the constructors the embedded code
uses). -/
inductive COErr where
  | no
  | illegalArgument
  | outOfMemory
  | syscall
  | dataCorrupt
  | txBusy
  | txOverflow
deriving DecidableEq, Repr

/-- Driver interface states CO_CANinterfaceState_t. -/
inductive IfState where
  | active
  | listenOnly
  | busOff
deriving DecidableEq, Repr

/-- Modelled from the spec: CRC-16/CCITT is "a known algorithm; treated as a
pure function" whose implementation (301/crc16-ccitt.h) is not under src/.
One shift step of the standard bitwise CRC-16/CCITT with polynomial 0x1021. -/
def crc16_shift (crc : Nat) : Nat :=
  if crc &&& 0x8000 ≠ 0 then ((crc * 2) ^^^ 0x1021) % 65536 else (crc * 2) % 65536

/-- Iterate a function n times. -/
def iterN {α : Type} (f : α → α) : Nat → α → α
  | 0, a => a
  | n + 1, a => iterN f n (f a)

/-- Modelled from the spec: one byte of the standard CRC-16/CCITT update. -/
def crc16_byte (crc b : Nat) : Nat :=
  iterN crc16_shift 8 ((crc ^^^ ((b % 256) * 256)) % 65536)

/-- Modelled from the spec: crc16_ccitt(block, blockLength, crc) over a byte
list, as used by CO_storageLinux.c. -/
def crc16_ccitt (data : List Nat) (crc : Nat) : Nat :=
  data.foldl crc16_byte crc

/-- Little-endian two-byte image of a uint16_t CRC, as laid down in the file
by fwrite(&crc, 1, 2, fp) on a little-endian Linux target. -/
def crc16le (c : Nat) : List Nat :=
  [c % 256, c / 256 % 256]

/-- Byte at position i of a read buffer, defaulting to 0. -/
def byteAt (buf : List Nat) (i : Nat) : Nat :=
  buf.getD i 0

/-- Decode a little-endian uint16_t from two bytes (memcpy(&crc2, &buf[len], 2)
on a little-endian target). -/
def leU16 (lo hi : Nat) : Nat :=
  lo % 256 + hi % 256 * 256

/-! ## Storage engine: explicit save (storeLinux, CO_storageLinux.c) -/

/-- Files involved in one storeLinux call: the live file <path>, the temporary
file <path>.tmp and the previous generation <path>.old; None means the file
does not exist. -/
structure StoreFS where
  main : Option (List Nat)
  tmp : Option (List Nat)
  old : Option (List Nat)
deriving DecidableEq, Repr

/-- Outcomes of the fallible libc calls made by storeLinux, in call order.
written1/written2 are the byte counts the two fwrite calls report (the file
receives exactly the bytes reported written); junk models the uninitialised
tail of the verify buffer beyond the bytes fread delivered; renameTmpOk is
the outcome of the checked rename(<path>.tmp, <path>) commit call (the
best-effort rename(<path>, <path>.old) fails in this model exactly when
<path> does not exist, and its result is ignored as in the source). -/
structure StoreOracle where
  mallocTmpOk : Bool
  mallocOldOk : Bool
  fopenWOk : Bool
  written1 : Nat
  written2 : Nat
  mallocBufOk : Bool
  fopenROk : Bool
  renameTmpOk : Bool
  junk : List Nat
deriving Repr

/-- Embedding of storeLinux (CO_storageLinux.c, lines 46-135): write data plus
CRC to <path>.tmp, reread and verify count and CRC, then rename <path> to
<path>.old (best-effort, ignored on failure) and <path>.tmp to <path>; the
commit rename is checked and its failure (missing source, or any other errno
reported through renameTmpOk) yields ODR_HW after the first rename has
already happened. -/
def storeLinux (data : List Nat) (fs : StoreFS) (o : StoreOracle) : ODR × StoreFS :=
  if ¬(o.mallocTmpOk ∧ o.mallocOldOk) then (ODR.outOfMem, fs)
  else if ¬o.fopenWOk then (ODR.hw, fs)
  else
    let len := data.length
    let crcStore := crc16_ccitt data 0
    let w1 := min o.written1 len
    let w2 := min o.written2 2
    let content := data.take w1 ++ (crc16le crcStore).take w2
    let fs1 : StoreFS := { fs with tmp := some content }
    if w1 + w2 ≠ len + 2 then (ODR.hw, fs1)
    else if ¬o.mallocBufOk then (ODR.hw, fs1)
    else if ¬o.fopenROk then (ODR.hw, fs1)
    else
      let cnt := min content.length (len + 4)
      let buf := content.take cnt ++ o.junk
      let crcVerify := crc16_ccitt (List.map (byteAt buf) (List.range len)) 0
      let crcRead := leU16 (byteAt buf len) (byteAt buf (len + 1))
      if cnt ≠ len + 2 ∨ crcStore ≠ crcVerify ∨ crcStore ≠ crcRead then (ODR.hw, fs1)
      else
        let fs2 : StoreFS :=
          match fs1.main with
          | some m => { fs1 with old := some m, main := none }
          | none => fs1
        if o.renameTmpOk then (ODR.ok, { fs2 with main := fs2.tmp, tmp := none })
        else (ODR.hw, fs2)

/-! ## Storage engine: init-time restore of one entry (CO_storageLinux_init) -/

/-- Result of loading one storage entry at init (the per-entry body of
CO_storageLinux_init, lines 248-299): the entry's memory and cached CRC after
the loop body, whether data was copied in, and whether the entry was flagged
data-corrupt. -/
structure LoadResult where
  mem : List Nat
  crc : Nat
  copied : Bool
  dataCorrupt : Bool
deriving DecidableEq, Repr

/-- Embedding of the per-entry restore step of CO_storageLinux_init: file is
None when fopen fails; otherwise fread delivers min(file length, len+2) bytes
into a buffer whose remainder is the uninitialised junk. The file content
"-\n" check in the C code is cnt == 2 && buf[0] == '-'. -/
def loadEntry (len : Nat) (mem0 : List Nat) (crc0 : Nat) (file : Option (List Nat))
    (junk : List Nat) : LoadResult :=
  match file with
  | none => { mem := mem0, crc := crc0, copied := false, dataCorrupt := true }
  | some f =>
    let cnt := min f.length (len + 2)
    let buf := f.take (len + 2) ++ junk
    if cnt = 2 ∧ byteAt buf 0 = 45 then
      { mem := mem0, crc := crc0, copied := false, dataCorrupt := false }
    else
      let crc1 := crc16_ccitt (List.map (byteAt buf) (List.range len)) 0
      let crc2 := leU16 (byteAt buf len) (byteAt buf (len + 1))
      if crc1 = crc2 ∧ cnt = len + 2 then
        { mem := List.map (byteAt buf) (List.range len), crc := crc1,
          copied := true, dataCorrupt := false }
      else
        { mem := mem0, crc := crc0, copied := false, dataCorrupt := true }

/-! ## Storage engine: auto-save tick (CO_storageLinux_auto_process) -/

/-- One storage entry as seen by the auto-save path: the CO_storage_auto
attribute bit, whether entry->fp is open, the live memory, the cached CRC and
the subIndexOD tag. -/
structure AutoEntry where
  auto : Bool
  fpOpen : Bool
  mem : List Nat
  crc : Nat
  subIndexOD : Nat
deriving DecidableEq, Repr

/-- Byte counts the two fwrite calls of one auto-save report written. -/
structure AutoOracle where
  written1 : Nat
  written2 : Nat
deriving Repr

/-- Per-entry result of one auto-save step: the updated entry, the error bits
contributed to the returned mask, the number of fwrite syscalls performed and
the number of failed saves. -/
structure AutoStep where
  entry : AutoEntry
  errBits : Nat
  writeCalls : Nat
  failed : Nat
deriving Repr

/-- Embedding of the loop body of CO_storageLinux_auto_process
(CO_storageLinux.c, lines 345-387) for one entry. -/
def autoEntryStep (closeFiles : Bool) (e : AutoEntry) (o : AutoOracle) : AutoStep :=
  if ¬(e.auto ∧ e.fpOpen) then
    { entry := e, errBits := 0, writeCalls := 0, failed := 0 }
  else
    let crc := crc16_ccitt e.mem 0
    let step :=
      if crc ≠ e.crc then
        let cnt := min o.written1 e.mem.length + min o.written2 2
        if cnt = e.mem.length + 2 then
          { entry := { e with crc := crc }, errBits := 0, writeCalls := 2, failed := 0 }
        else
          { entry := e, errBits := 1 <<< min e.subIndexOD 31, writeCalls := 2, failed := 1 }
      else
        { entry := e, errBits := 0, writeCalls := 0, failed := 0 }
    if closeFiles then
      { step with entry := { step.entry with fpOpen := false } }
    else step

/-- Aggregate result of one CO_storageLinux_auto_process call. -/
structure AutoRun where
  entries : List AutoEntry
  errMask : Nat
  writeCalls : Nat
  failed : Nat
deriving Repr

/-- Embedding of CO_storageLinux_auto_process (CO_storageLinux.c, lines
333-390): fold the per-entry step over the entry list, or-ing error bits into
the returned mask; the oracle function gives the i-th entry's write outcome. -/
def CO_storageLinux_auto_process (closeFiles : Bool) (orc : Nat → AutoOracle) :
    List AutoEntry → Nat → AutoRun
  | [], _ => { entries := [], errMask := 0, writeCalls := 0, failed := 0 }
  | e :: rest, i =>
    let s := autoEntryStep closeFiles e (orc i)
    let r := CO_storageLinux_auto_process closeFiles orc rest (i + 1)
    { entries := s.entry :: r.entries, errMask := s.errBits ||| r.errMask,
      writeCalls := s.writeCalls + r.writeCalls, failed := s.failed + r.failed }

/-! ## CAN error monitor (CO_error.c) -/

/-- Error class bits of a CAN error frame's can_id, from the stable kernel ABI
header linux/can/error.h. -/
def CAN_ERR_CRTL : Nat := 0x4

/-- ACK-miss bit of a CAN error frame's can_id (linux/can/error.h). -/
def CAN_ERR_ACK : Nat := 0x20

/-- Bus-off bit of a CAN error frame's can_id (linux/can/error.h). -/
def CAN_ERR_BUSOFF : Nat := 0x40

/-- Controller sub-status bits carried in data[1] (linux/can/error.h). -/
def CAN_ERR_CRTL_RX_OVERFLOW : Nat := 0x01

/-- Controller TX overflow sub-status bit. -/
def CAN_ERR_CRTL_TX_OVERFLOW : Nat := 0x02

/-- Controller RX warning sub-status bit. -/
def CAN_ERR_CRTL_RX_WARNING : Nat := 0x04

/-- Controller TX warning sub-status bit. -/
def CAN_ERR_CRTL_TX_WARNING : Nat := 0x08

/-- Controller RX passive sub-status bit. -/
def CAN_ERR_CRTL_RX_PASSIVE : Nat := 0x10

/-- Controller TX passive sub-status bit. -/
def CAN_ERR_CRTL_TX_PASSIVE : Nat := 0x20

/-- Controller error-active sub-status bit. -/
def CAN_ERR_CRTL_ACTIVE : Nat := 0x40

/-- Modelled from the spec: the CANerrorStatus bitfield constants live in
301/CO_driver.h, which is not under src/; the spec only requires them to be
distinct bits of a 16-bit status word, and no claim depends on their values. -/
def CO_CAN_ERRRX_PASSIVE : Nat := 0x0001

/-- Modelled from the spec: RX overflow status bit (301/CO_driver.h). -/
def CO_CAN_ERRRX_OVERFLOW : Nat := 0x0002

/-- Modelled from the spec: TX bus-off status bit (301/CO_driver.h). -/
def CO_CAN_ERRTX_BUS_OFF : Nat := 0x0100

/-- Modelled from the spec: TX passive status bit (301/CO_driver.h). -/
def CO_CAN_ERRTX_PASSIVE : Nat := 0x0200

/-- Modelled from the spec: TX overflow status bit (301/CO_driver.h). -/
def CO_CAN_ERRTX_OVERFLOW : Nat := 0x0400

/-- Constant CO_CANerror_NOACK_MAX (CO_error.h): NO-ACKs in a row before
assuming no other node is on the bus. -/
def CO_CANerror_NOACK_MAX : Nat := 16

/-- Constant CO_CANerror_LISTEN_ONLY (CO_error.h): seconds transmission stays
blocked while listen-only is active. -/
def CO_CANerror_LISTEN_ONLY : Nat := 10

/-- Monotonic clock value (struct timespec). -/
structure Ts where
  sec : Int
  nsec : Int
deriving DecidableEq, Repr

/-- Elapsed nanoseconds between two timespec values. -/
def elapsedNs (entry now : Ts) : Int :=
  (now.sec - entry.sec) * 1000000000 + (now.nsec - entry.nsec)

/-- CO_CANinterfaceErrorhandler_t: no-ack counter (uint32_t), listen-only
flag, listen-only entry timestamp, CAN error status bitfield (uint16_t). -/
structure ErrH where
  noackCounter : Nat
  listenOnly : Bool
  timestamp : Ts
  status : Nat
deriving DecidableEq, Repr

/-- Relevant content of a struct can_frame for the error monitor: can_id and
data[1]. -/
structure CanFrame where
  canId : Nat
  data1 : Nat
deriving DecidableEq, Repr

/-- Result of one error-monitor call: interface state, updated handler, and
whether a physical interface reset (down/up shell command) was issued. -/
structure ErrStep where
  state : IfState
  h : ErrH
  reset : Bool
deriving Repr

/-- Embedding of CO_CANerrorSetListenOnly (CO_error.c, lines 46-70): record
the entry time, set the flag and optionally reset the interface. -/
def CO_CANerrorSetListenOnly (h : ErrH) (now : Ts) (resetIf : Bool) : ErrStep :=
  { state := IfState.listenOnly,
    h := { h with listenOnly := true, timestamp := now },
    reset := resetIf }

/-- Embedding of CO_CANerrorClearListenOnly (CO_error.c, lines 84-91). -/
def CO_CANerrorClearListenOnly (h : ErrH) : ErrH :=
  { h with listenOnly := false, timestamp := { sec := 0, nsec := 0 } }

/-- Embedding of CO_CANerrorBusoff (CO_error.c, lines 107-126). -/
def CO_CANerrorBusoff (h : ErrH) (msg : CanFrame) (now : Ts) : ErrStep :=
  if msg.canId &&& CAN_ERR_BUSOFF ≠ 0 then
    let s := CO_CANerrorSetListenOnly h now true
    { s with h := { s.h with status := s.h.status ||| CO_CAN_ERRTX_BUS_OFF } }
  else
    { state := IfState.active, h := h, reset := false }

/-- Embedding of CO_CANerrorCrtl (CO_error.c, lines 143-204): controller
status decoding; only the CANerrorStatus bitfield is affected, the result is
always ACTIVE. -/
def CO_CANerrorCrtl (h : ErrH) (msg : CanFrame) : ErrStep :=
  let h1 :=
    if msg.canId &&& CAN_ERR_CRTL ≠ 0 then
      let h0 := { h with status := h.status &&& (0xFFFF ^^^ CO_CAN_ERRTX_BUS_OFF) }
      if msg.data1 &&& CAN_ERR_CRTL_RX_PASSIVE ≠ 0 then
        { h0 with status := h0.status ||| CO_CAN_ERRRX_PASSIVE }
      else if msg.data1 &&& CAN_ERR_CRTL_TX_PASSIVE ≠ 0 then
        { h0 with status := h0.status ||| CO_CAN_ERRTX_PASSIVE }
      else if msg.data1 &&& CAN_ERR_CRTL_RX_OVERFLOW ≠ 0 then
        { h0 with status := h0.status ||| CO_CAN_ERRRX_OVERFLOW }
      else if msg.data1 &&& CAN_ERR_CRTL_TX_OVERFLOW ≠ 0 then
        { h0 with status := h0.status ||| CO_CAN_ERRTX_OVERFLOW }
      else if msg.data1 &&& CAN_ERR_CRTL_RX_WARNING ≠ 0 then
        { h0 with status := h0.status &&& (0x7FFF ^^^ CO_CAN_ERRRX_PASSIVE) }
      else if msg.data1 &&& CAN_ERR_CRTL_TX_WARNING ≠ 0 then
        { h0 with status := h0.status &&& (0x7FFF ^^^ CO_CAN_ERRTX_PASSIVE) }
      else h0
    else h
  { state := IfState.active, h := h1, reset := false }

/-- Embedding of CO_CANerrorNoack (CO_error.c, lines 221-253): ignore when
already listen-only; on an ACK-miss increment the no-ack counter (uint32_t)
and enter listen-only with interface reset once it exceeds
CO_CANerror_NOACK_MAX; on an error frame without the ACK bit reset the
counter. -/
def CO_CANerrorNoack (h : ErrH) (msg : CanFrame) (now : Ts) : ErrStep :=
  if h.listenOnly then
    { state := IfState.listenOnly, h := h, reset := false }
  else if msg.canId &&& CAN_ERR_ACK ≠ 0 then
    let h1 := { h with noackCounter := (h.noackCounter + 1) % 2 ^ 32 }
    if h1.noackCounter > CO_CANerror_NOACK_MAX then
      CO_CANerrorSetListenOnly h1 now true
    else
      { state := IfState.active, h := h1, reset := false }
  else
    { state := IfState.active, h := { h with noackCounter := 0 }, reset := false }

/-- Embedding of CO_CANerror_init (CO_error.c, lines 267-279), the handler
fields the model keeps. -/
def CO_CANerror_init : ErrH :=
  { noackCounter := 0, listenOnly := false,
    timestamp := { sec := 0, nsec := 0 }, status := 0 }

/-- Embedding of CO_CANerror_rxMsg (CO_error.c, lines 309-321): a received
data frame clears listen-only immediately and resets the no-ack counter. -/
def CO_CANerror_rxMsg (h : ErrH) : ErrH :=
  let h1 := if h.listenOnly then CO_CANerrorClearListenOnly h else h
  { h1 with noackCounter := 0 }

/-- Embedding of CO_CANerror_txMsg (CO_error.c, lines 333-354): in
listen-only, clear the flag and return ACTIVE only when more than
CO_CANerror_LISTEN_ONLY seconds (whole tv_sec comparison) have passed since
entry; otherwise keep the flag and return LISTEN_ONLY. -/
def CO_CANerror_txMsg (h : ErrH) (now : Ts) : IfState × ErrH :=
  if h.listenOnly then
    if h.timestamp.sec + (CO_CANerror_LISTEN_ONLY : Int) < now.sec then
      (IfState.active, CO_CANerrorClearListenOnly h)
    else
      (IfState.listenOnly, h)
  else
    (IfState.active, h)

/-- Embedding of CO_CANerror_rxMsgError (CO_error.c, lines 367-400): process
bus-off, then controller, then no-ack, stopping at the first non-ACTIVE
result. -/
def CO_CANerror_rxMsgError (h : ErrH) (msg : CanFrame) (now : Ts) : ErrStep :=
  let r1 := CO_CANerrorBusoff h msg now
  if r1.state ≠ IfState.active then r1
  else
    let r2 := CO_CANerrorCrtl r1.h msg
    if r2.state ≠ IfState.active then r2
    else
      let r3 := CO_CANerrorNoack r2.h msg now
      if r3.state ≠ IfState.active then r3
      else r3

/-- Error frame carrying exactly the ACK-miss bit, as produced for every
failed transmission in scenario S4. -/
def ackFrame : CanFrame :=
  { canId := CAN_ERR_ACK, data1 := 0 }

/-- Feed n consecutive ACK-miss error frames to the monitor. -/
def iterAckFrames (now : Ts) : Nat → ErrH → ErrH
  | 0, h => h
  | n + 1, h => (CO_CANerror_rxMsgError (iterAckFrames now n h) ackFrame now).h

/-! ## Event loop: CO_epoll_processLast (CO_epoll_interface.c) -/

/-- Fields of struct itimerspec: the periodic interval and the next
expiration, each as tv_sec/tv_nsec. -/
structure Itm where
  ivSec : Nat
  ivNsec : Nat
  vSec : Nat
  vNsec : Nat
deriving DecidableEq, Repr

/-- Fields of CO_epoll_t that CO_epoll_processLast touches. -/
structure Epoll where
  epollNew : Bool
  timerNext_us : Nat
  timerInterval_us : Nat
  tm : Itm
deriving DecidableEq, Repr

/-- Nanoseconds until the armed expiration of an itimerspec. -/
def armedNs (t : Itm) : Nat :=
  t.vSec * 1000000000 + t.vNsec

/-- Nanoseconds of the periodic interval of an itimerspec. -/
def intervalNs (t : Itm) : Nat :=
  t.ivSec * 1000000000 + t.ivNsec

/-- The itimerspec CO_epoll_create arms: interval timerInterval_us, a tiny
initial expiration of one nanosecond (CO_epoll_interface.c, lines 143-146). -/
def CO_epoll_create_tm (interval_us : Nat) : Itm :=
  { ivSec := interval_us / 1000000, ivNsec := interval_us % 1000000 * 1000,
    vSec := 0, vNsec := 1 }

/-- Embedding of CO_epoll_processLast (CO_epoll_interface.c, lines 289-317):
iff the application lowered timerNext_us below timerInterval_us, bump it by
one microsecond (uint32_t) and re-arm the timer's next expiration, leaving
the interval fields untouched; the Bool records whether timerfd_settime was
called. -/
def CO_epoll_processLast (ep : Epoll) : Epoll × Bool :=
  let ep0 := if ep.epollNew then { ep with epollNew := false } else ep
  if ep0.timerNext_us < ep0.timerInterval_us then
    let next := (ep0.timerNext_us + 1) % 2 ^ 32
    let tm' :=
      if ep0.timerInterval_us < 1000000 then
        { ep0.tm with vNsec := next * 1000 }
      else
        { ep0.tm with vSec := next / 1000000, vNsec := next % 1000000 * 1000 }
    ({ ep0 with timerNext_us := next, tm := tm' }, true)
  else
    (ep0, false)

/-! ## CAN driver: single-interface send and deferred re-drive (CO_driver.c) -/

/-- sizeof(struct can_frame), the byte count a successful send returns. -/
def CAN_MTU : Int := 16

/-- Linux errno values the send path distinguishes. -/
def EINTR : Nat := 4

/-- Linux errno EAGAIN. -/
def EAGAIN : Nat := 11

/-- Linux errno ENOBUFS. -/
def ENOBUFS : Nat := 105

/-- Outcome of one send(2) call: the errno after the call (0 when the call
succeeded) and its return value. -/
structure SendOutcome where
  errno : Nat
  n : Int
deriving DecidableEq, Repr

/-- uint16_t increment. -/
def inc16 (c : Nat) : Nat :=
  (c + 1) % 65536

/-- uint16_t decrement. -/
def dec16 (c : Nat) : Nat :=
  (c + 65535) % 65536

/-- The tx-side state of CO_CANmodule_t the single-interface send path
touches: the bufferFull flag of each tx buffer, CANtxCount (uint16_t) and the
interface error handler's CANerrorStatus bitfield. -/
structure TxModule where
  tx : List Bool
  count : Nat
  status : Nat
deriving DecidableEq, Repr

/-- bufferFull flag of tx buffer i (out-of-range reads as false). -/
def getB (l : List Bool) (i : Nat) : Bool :=
  l.getD i false

/-- Embedding of CO_CANsend for CO_DRIVER_MULTI_INTERFACE == 0 (CO_driver.c,
lines 1363-1418) called on tx buffer i: report TX overflow if the buffer is
already full but attempt the send anyway; on a full write of CAN_MTU clear
bufferFull and decrement CANtxCount if it was set; on EINTR/EAGAIN/ENOBUFS
set bufferFull, increment CANtxCount on the false-to-true transition and
return TX_BUSY; otherwise set the overflow status bit and return SYSCALL. -/
def CO_CANsend (m : TxModule) (i : Nat) (o : SendOutcome) : COErr × TxModule :=
  let full := getB m.tx i
  let err0 := if full then COErr.txOverflow else COErr.no
  let m0 := if full then { m with status := m.status ||| CO_CAN_ERRTX_OVERFLOW } else m
  if o.errno = 0 ∧ o.n = CAN_MTU then
    if full then
      (err0, { m0 with tx := m0.tx.set i false, count := dec16 m0.count })
    else
      (err0, m0)
  else if o.errno = EINTR ∨ o.errno = EAGAIN ∨ o.errno = ENOBUFS then
    if full then
      (COErr.txBusy, m0)
    else
      (COErr.txBusy, { m0 with tx := m0.tx.set i true, count := inc16 m0.count })
  else
    (COErr.syscall, { m0 with status := m0.status ||| CO_CAN_ERRTX_OVERFLOW })

/-- Embedding of the tx part of CO_CANmodule_init (CO_driver.c, lines
653-721): CANtxCount is zeroed, but the supplied tx buffers' bufferFull flags
are not touched by the function. -/
def CO_CANmodule_init_tx (txArray : List Bool) : TxModule :=
  { tx := txArray, count := 0, status := 0 }

/-- Index of the first tx buffer whose bufferFull flag is set. -/
def firstFull : List Bool → Option Nat
  | [] => none
  | b :: rest => if b then some 0 else (firstFull rest).map (· + 1)

/-- Number of tx buffers whose bufferFull flag is set. -/
def countFull (l : List Bool) : Nat :=
  (l.filter id).length

/-- Embedding of the deferred-re-send part of CO_CANmodule_process
(CO_driver.c, lines 1447-1494): when CANtxCount > 0, clear the first full
slot and recall CO_CANsend on it; when no slot is marked, reset the counter. -/
def CO_CANmodule_process (m : TxModule) (o : SendOutcome) : TxModule :=
  if m.count > 0 then
    match firstFull m.tx with
    | some i =>
      let m1 : TxModule := { m with tx := m.tx.set i false, count := dec16 m.count }
      (CO_CANsend m1 i o).2
    | none => { m with count := 0 }
  else m

/-- Invariant of the single-interface tx bookkeeping: CANtxCount equals the
number of tx buffers whose bufferFull flag is set. -/
def txInv (m : TxModule) : Prop :=
  m.count = countFull m.tx

/-! ## CAN driver: RX buffer configuration and dispatch (CO_driver.c) -/

/-- Standard-frame identifier mask CAN_SFF_MASK (linux/can.h). -/
def CAN_SFF_MASK : Nat := 0x7FF

/-- Extended-frame flag CAN_EFF_FLAG (linux/can.h). -/
def CAN_EFF_FLAG : Nat := 0x80000000

/-- Remote-transmission-request flag CAN_RTR_FLAG (linux/can.h). -/
def CAN_RTR_FLAG : Nat := 0x40000000

/-- One CO_CANrx_t slot: effective identifier, mask, and the registered
callback (none models a NULL CANrx_callback); the callback is named by an
opaque tag. -/
structure RxSlot where
  ident : Nat
  mask : Nat
  callback : Option Nat
deriving DecidableEq, Repr

/-- Default value CO_CANmodule_init gives every rx slot (CO_driver.c, lines
701-709). -/
def rxSlotDefault : RxSlot :=
  { ident := 0, mask := 0xFFFFFFFF, callback := none }

/-- Embedding of the slot configuration done by CO_CANrxBufferInit
(CO_driver.c, lines 953-1001): ident := (ident & CAN_SFF_MASK) | (rtr ?
CAN_RTR_FLAG : 0), mask := (mask & CAN_SFF_MASK) | CAN_EFF_FLAG |
CAN_RTR_FLAG. -/
def CO_CANrxBufferInit (ident mask : Nat) (rtr : Bool) (cb : Option Nat) : RxSlot :=
  { ident := ident &&& CAN_SFF_MASK ||| (if rtr then CAN_RTR_FLAG else 0),
    mask := mask &&& CAN_SFF_MASK ||| CAN_EFF_FLAG ||| CAN_RTR_FLAG,
    callback := cb }

/-- The driver's match test (CO_driver.c, line 1617): a frame matches a slot
iff (rcvMsg->ident XOR slot->ident) AND slot->mask == 0. -/
def rxMatch (frameId : Nat) (s : RxSlot) : Bool :=
  (frameId ^^^ s.ident) &&& s.mask = 0

/-- Index of the first slot the frame matches in the linear scan. -/
def rxScan (frameId : Nat) : List RxSlot → Option Nat
  | [] => none
  | s :: rest =>
    if rxMatch frameId s then some 0 else (rxScan frameId rest).map (· + 1)

/-- Embedding of CO_CANrxMsg (CO_driver.c, lines 1595-1642): scan the RX
array linearly for the first match; when one is found, invoke its callback if
non-NULL and return its index, otherwise return -1. The second component
lists the callbacks invoked, in order. -/
def CO_CANrxMsg (slots : List RxSlot) (frameId : Nat) : Int × List Nat :=
  match rxScan frameId slots with
  | some i => ((i : Int), ((slots.getD i rxSlotDefault).callback).toList
      )
  | none => (-1, [])

/-! ## Gateway: stdio command prefixing (CO_epoll_processGtw) -/

/-- isgraph(3) in the C locale: printable other than space. -/
def isgraphB (c : Nat) : Bool :=
  33 ≤ c ∧ c ≤ 126

/-- isprint(3) in the C locale: printable including space. -/
def isprintB (c : Nat) : Bool :=
  32 ≤ c ∧ c ≤ 126

/-- The literal "[0] " the stdio path prepends. -/
def gtwSequence : List Nat :=
  [91, 48, 93, 32]

/-- Embedding of the stdio branch of CO_epoll_processGtw
(CO_epoll_interface.c, lines 957-970) for one chunk read from standard input:
returns the byte chunks written to the ASCII parser, in order, and the new
freshCommand flag. buf is the chunk (nonempty), space the parser's free input
space (the read delivered at most space bytes). -/
def CO_epoll_processGtw_stdio (buf : List Nat) (space : Nat) (fresh : Bool) :
    List (List Nat) × Bool :=
  let s := buf.length
  let closed := buf.getLastD 0 = 10
  let first := buf.headD 0
  let writes :=
    if first ≠ 91 ∧ space - s ≥ gtwSequence.length ∧ isgraphB first = true ∧
        first ≠ 35 ∧ closed ∧ fresh then
      [gtwSequence, buf]
    else
      [buf]
  (writes, closed)

/-- The file system after a committed save: <path> holds the data followed by
its CRC, <path>.tmp is consumed, and <path>.old holds the previous <path>
when one existed. -/
def commitFS (fs : StoreFS) (data : List Nat) : StoreFS :=
  { main := some (data ++ crc16le (crc16_ccitt data 0)), tmp := none,
    old := match fs.main with
      | some m => some m
      | none => fs.old }

/-- The file system when the checked commit rename fails after the best-effort
rename already ran: <path> is gone, its previous content survives as
<path>.old when it existed, and the verified image is still in <path>.tmp. -/
def failedCommitFS (fs : StoreFS) (data : List Nat) : StoreFS :=
  { main := none, tmp := some (data ++ crc16le (crc16_ccitt data 0)),
    old := match fs.main with
      | some m => some m
      | none => fs.old }

/-! ## Helper lemmas -/

theorem crc16_shift_lt (x : Nat) : crc16_shift x < 65536 := by
  unfold crc16_shift
  split <;> exact Nat.mod_lt _ (by norm_num)

theorem iterN_crc16_shift_lt (n : Nat) (x : Nat) : iterN crc16_shift n x < 65536 ∨ iterN crc16_shift n x = x := by
  induction n generalizing x with
  | zero => right; rfl
  | succ k ih =>
    rcases ih (crc16_shift x) with h | h
    · left; exact h
    · left; rw [iterN, h]; exact crc16_shift_lt x

theorem crc16_byte_lt (c b : Nat) : crc16_byte c b < 65536 := by
  unfold crc16_byte
  rcases iterN_crc16_shift_lt 8 ((c ^^^ b % 256 * 256) % 65536) with h | h
  · exact h
  · rw [h]; exact Nat.mod_lt _ (by norm_num)

theorem crc16_ccitt_lt (data : List Nat) (c : Nat) (hc : c < 65536) :
    crc16_ccitt data c < 65536 := by
  induction data generalizing c with
  | nil => exact hc
  | cons b rest ih => exact ih (crc16_byte c b) (crc16_byte_lt c b)

theorem map_byteAt_prefix (data rest : List Nat) :
    List.map (byteAt (data ++ rest)) (List.range data.length) = data := by
  induction data generalizing rest with
  | nil => rfl
  | cons d tl ih =>
    have h : ∀ i : Nat, byteAt (d :: tl ++ rest) (i + 1) = byteAt (tl ++ rest) i := by
      intro i; rfl
    calc List.map (byteAt ((d :: tl) ++ rest)) (List.range (d :: tl).length)
        = byteAt (d :: tl ++ rest) 0 ::
          List.map (fun i => byteAt (d :: tl ++ rest) (i + 1)) (List.range tl.length) := by
          simp [List.length_cons, List.range_succ_eq_map, List.map_map, Function.comp_def]
      _ = d :: List.map (byteAt (tl ++ rest)) (List.range tl.length) := by
          simp only [h]; rfl
      _ = d :: tl := by rw [ih rest]

theorem leU16_crc16le (c : Nat) (hc : c < 65536) :
    leU16 ((crc16le c).getD 0 0) ((crc16le c).getD 1 0) = c := by
  simp only [crc16le, leU16, List.getD]
  simp only [List.get?_eq_getElem?]
  norm_num
  omega

theorem crc16le_length (c : Nat) : (crc16le c).length = 2 := rfl

theorem storeLinux_good (data : List Nat) (fs : StoreFS) (wr1 wr2 : Nat) (junk : List Nat)
    (rok : Bool) (h3 : min wr1 data.length + min wr2 2 = data.length + 2) :
    storeLinux data fs ⟨true, true, true, wr1, wr2, true, true, rok, junk⟩ =
      (if rok then (ODR.ok, commitFS fs data) else (ODR.hw, failedCommitFS fs data)) := by
  have ha : min wr1 data.length = data.length := by
    have h1 := Nat.min_le_right wr1 data.length
    have h2 := Nat.min_le_right wr2 2
    omega
  have hb : min wr2 2 = 2 := by
    have h1 := Nat.min_le_right wr1 data.length
    have h2 := Nat.min_le_right wr2 2
    omega
  have hc := crc16_ccitt_lt data 0 (by norm_num)
  simp only [storeLinux, ha, hb, List.take_length]
  norm_num
  rw [show ((crc16le (crc16_ccitt data 0)).length) = 2 from rfl]
  norm_num
  rw [show (List.take 2 (crc16le (crc16_ccitt data 0))) = crc16le (crc16_ccitt data 0) from rfl]
  rw [show data.length + 2 = (data ++ crc16le (crc16_ccitt data 0)).length from by
    simp [crc16le]]
  rw [List.take_length, List.append_assoc, map_byteAt_prefix]
  have e1 : byteAt (data ++ (crc16le (crc16_ccitt data 0) ++ junk)) data.length =
      (crc16le (crc16_ccitt data 0)).getD 0 0 := by
    unfold byteAt
    rw [List.getD_append_right _ _ _ _ (le_refl _), Nat.sub_self,
      List.getD_append _ _ _ _ (by rw [crc16le_length]; norm_num)]
  have e2 : byteAt (data ++ (crc16le (crc16_ccitt data 0) ++ junk)) (data.length + 1) =
      (crc16le (crc16_ccitt data 0)).getD 1 0 := by
    unfold byteAt
    rw [List.getD_append_right _ _ _ _ (by omega), Nat.add_sub_cancel_left,
      List.getD_append _ _ _ _ (by rw [crc16le_length]; norm_num)]
  rw [e1, e2, leU16_crc16le _ hc, if_neg (by simp)]
  rcases fs with ⟨fsm, fst, fso⟩
  cases rok <;> cases fsm <;> simp [commitFS, failedCommitFS]

theorem byteAt_take_append (g junk : List Nat) (n i : Nat) (hi : i < n) (hn : n ≤ g.length) :
    byteAt (g.take n ++ junk) i = g.getD i 0 := by
  unfold byteAt
  rw [List.getD_append _ _ _ _ (by rw [List.length_take]; omega)]
  simp only [List.getD, List.get?_eq_getElem?, List.getElem?_take_of_lt hi]

theorem map_getD_range_take (g : List Nat) (len : Nat) (h : len ≤ g.length) :
    List.map (fun i => g.getD i 0) (List.range len) = g.take len := by
  have hb := map_byteAt_prefix (g.take len) (g.drop len)
  rw [List.take_append_drop, List.length_take, min_eq_left h] at hb
  exact hb

theorem autoEntryStep_idem (e : AutoEntry) (o o2 : AutoOracle)
    (h : (autoEntryStep false e o).failed = 0) :
    (autoEntryStep false (autoEntryStep false e o).entry o2).writeCalls = 0 := by
  by_cases h1 : e.auto = true ∧ e.fpOpen = true
  · by_cases h2 : crc16_ccitt e.mem 0 = e.crc
    · have hstep : autoEntryStep false e o = ⟨e, 0, 0, 0⟩ := by
        simp [autoEntryStep, h1.1, h1.2, h2]
      rw [hstep]
      simp [autoEntryStep, h1.1, h1.2, h2]
    · by_cases h3 : min o.written1 e.mem.length + min o.written2 2 = e.mem.length + 2
      · have hstep : autoEntryStep false e o =
            ⟨{ e with crc := crc16_ccitt e.mem 0 }, 0, 2, 0⟩ := by
          simp [autoEntryStep, h1.1, h1.2, h2, h3]
        rw [hstep]
        simp [autoEntryStep, h1.1, h1.2]
      · have hstep : autoEntryStep false e o =
            ⟨e, 1 <<< min e.subIndexOD 31, 2, 1⟩ := by
          simp [autoEntryStep, h1.1, h1.2, h2, h3]
        rw [hstep] at h
        simp at h
  · have hstep : autoEntryStep false e o = ⟨e, 0, 0, 0⟩ := by
      simp only [autoEntryStep, if_pos h1]
    rw [hstep]
    simp only [autoEntryStep, if_pos h1]

theorem auto_process_idem (es : List AutoEntry) (orc orc2 : Nat → AutoOracle) (i j : Nat)
    (h : (CO_storageLinux_auto_process false orc es i).failed = 0) :
    (CO_storageLinux_auto_process false orc2
      (CO_storageLinux_auto_process false orc es i).entries j).writeCalls = 0 := by
  induction es generalizing i j with
  | nil => rfl
  | cons e rest ih =>
    simp only [CO_storageLinux_auto_process] at h ⊢
    have h1 : (autoEntryStep false e (orc i)).failed = 0 := by omega
    have h2 : (CO_storageLinux_auto_process false orc rest (i + 1)).failed = 0 := by omega
    rw [autoEntryStep_idem e (orc i) (orc2 j) h1, ih (i + 1) (j + 1) h2]

/-! ## Claim theorems -/

/-- C1: storeLinux writes the entry's bytes followed by the freshly computed
CRC-16/CCITT to <path>.tmp, rereads and verifies count and CRC, and only on
success renames <path> to <path>.old (best-effort) and <path>.tmp to <path>;
on any write, read, count or CRC failure it returns the HW error and performs
neither rename, so the previous <path> is unchanged; when every libc step
succeeds with full byte counts the reread verification passes and the save
commits; and when only the checked commit rename fails, HW is returned after
the best-effort rename, so the previous <path> content survives as <path>.old
and the verified image remains in <path>.tmp. -/
theorem storeLinux_commit_or_unchanged (data : List Nat) (fs : StoreFS) (o : StoreOracle) :
    (¬(o.mallocTmpOk = true ∧ o.mallocOldOk = true) →
      storeLinux data fs o = (ODR.outOfMem, fs)) ∧
    (o.mallocTmpOk = true → o.mallocOldOk = true →
      (o.fopenWOk = false ∨ min o.written1 data.length + min o.written2 2 ≠ data.length + 2 ∨
        o.mallocBufOk = false ∨ o.fopenROk = false) →
      (storeLinux data fs o).1 = ODR.hw ∧
      (storeLinux data fs o).2.main = fs.main ∧ (storeLinux data fs o).2.old = fs.old) ∧
    ((storeLinux data fs o).1 = ODR.ok →
      (storeLinux data fs o).2.main = some (data ++ crc16le (crc16_ccitt data 0)) ∧
      (storeLinux data fs o).2.tmp = none ∧
      (∀ c, fs.main = some c → (storeLinux data fs o).2.old = some c)) ∧
    (o.mallocTmpOk = true → o.mallocOldOk = true → o.fopenWOk = true →
      min o.written1 data.length + min o.written2 2 = data.length + 2 →
      o.mallocBufOk = true → o.fopenROk = true → o.renameTmpOk = true →
      (storeLinux data fs o).1 = ODR.ok) ∧
    (o.mallocTmpOk = true → o.mallocOldOk = true → o.fopenWOk = true →
      min o.written1 data.length + min o.written2 2 = data.length + 2 →
      o.mallocBufOk = true → o.fopenROk = true → o.renameTmpOk = false →
      (storeLinux data fs o).1 = ODR.hw ∧
      (storeLinux data fs o).2.tmp = some (data ++ crc16le (crc16_ccitt data 0)) ∧
      (storeLinux data fs o).2.main = none ∧
      (∀ c, fs.main = some c → (storeLinux data fs o).2.old = some c)) := by
  obtain ⟨fsm, fst, fso⟩ := fs
  refine ⟨?_, ?_, ?_, ?_, ?_⟩
  · -- a failed filename allocation aborts with OUT_OF_MEM and no file touched
    intro h1
    simp only [storeLinux]
    rw [if_pos h1]
  · -- any failed write, read or count step reports HW before either rename,
    -- leaving <path> and <path>.old untouched
    simp only [storeLinux]
    split_ifs with h1 h2 h3 h4 h5 h6 h7
    · exact fun _ _ _ => ⟨rfl, rfl, rfl⟩
    · exact fun _ _ _ => ⟨rfl, rfl, rfl⟩
    · intro hmt hmo hd
      push_neg at h3
      rcases hd with hv | hv | hv | hv
      · rw [h2] at hv; cases hv
      · exact absurd h3 hv
      · rw [h4] at hv; cases hv
      · rw [h5] at hv; cases hv
    · intro hmt hmo hd
      push_neg at h3
      rcases hd with hv | hv | hv | hv
      · rw [h2] at hv; cases hv
      · exact absurd h3 hv
      · rw [h4] at hv; cases hv
      · rw [h5] at hv; cases hv
    · exact fun _ _ _ => ⟨rfl, rfl, rfl⟩
    · exact fun _ _ _ => ⟨rfl, rfl, rfl⟩
    · exact fun _ _ _ => ⟨rfl, rfl, rfl⟩
    · intro hmt hmo _
      exact absurd ⟨hmt, hmo⟩ h1
  · -- OK means <path> holds data ++ CRC and <path>.old the previous file
    simp only [storeLinux]
    split_ifs with h1 h2 h3 h4 h5 h6 h7
    · exact fun hok => absurd hok (by decide)
    · exact fun hok => absurd hok (by decide)
    · push_neg at h3
      have ha : min o.written1 data.length = data.length := by
        have u1 := Nat.min_le_right o.written1 data.length
        have u2 := Nat.min_le_right o.written2 2
        omega
      have hb : min o.written2 2 = 2 := by
        have u1 := Nat.min_le_right o.written1 data.length
        have u2 := Nat.min_le_right o.written2 2
        omega
      rw [ha, hb, List.take_length,
        show (List.take 2 (crc16le (crc16_ccitt data 0))) = crc16le (crc16_ccitt data 0)
          from rfl]
      cases fsm <;> exact fun _ => ⟨rfl, rfl, fun c hc => by simp_all⟩
    · exact fun hok => absurd hok (by decide)
    · exact fun hok => absurd hok (by decide)
    · exact fun hok => absurd hok (by decide)
    · exact fun hok => absurd hok (by decide)
    · exact fun hok => absurd hok (by decide)
  · -- when every libc step succeeds with full counts, the save commits
    intro hmt hmo hfw hsum hmb hfr hrok
    obtain ⟨mt, mo, fw, wr1, wr2, mb, fr, rok, junk⟩ := o
    simp only at hmt hmo hfw hmb hfr hrok hsum
    subst hmt hmo hfw hmb hfr hrok
    rw [storeLinux_good data _ wr1 wr2 junk true hsum]
    rfl
  · -- a failed commit rename reports HW with the previous <path> preserved
    -- as <path>.old and the verified image still in <path>.tmp
    intro hmt hmo hfw hsum hmb hfr hrok
    obtain ⟨mt, mo, fw, wr1, wr2, mb, fr, rok, junk⟩ := o
    simp only at hmt hmo hfw hmb hfr hrok hsum
    subst hmt hmo hfw hmb hfr hrok
    rw [storeLinux_good data _ wr1 wr2 junk false hsum]
    refine ⟨rfl, rfl, rfl, fun c hc => ?_⟩
    show (failedCommitFS ⟨fsm, fst, fso⟩ data).old = some c
    simp only at hc
    unfold failedCommitFS
    rw [hc]

/-- Witness for C1: a concrete save of two bytes over a previous file
commits, the live file holds the bytes plus their CRC and the previous
content moved to .old; the same save with a failing commit rename returns HW,
keeps the previous content in .old and the image in .tmp. -/
theorem storeLinux_commit_witness :
    (storeLinux [7, 8] ⟨some [1, 2], none, none⟩
        ⟨true, true, true, 2, 2, true, true, true, []⟩).1 = ODR.ok ∧
    (storeLinux [7, 8] ⟨some [1, 2], none, none⟩
        ⟨true, true, true, 2, 2, true, true, true, []⟩).2.main =
      some ([7, 8] ++ crc16le (crc16_ccitt [7, 8] 0)) ∧
    (storeLinux [7, 8] ⟨some [1, 2], none, none⟩
        ⟨true, true, true, 2, 2, true, true, true, []⟩).2.old = some [1, 2] ∧
    (storeLinux [7, 8] ⟨some [1, 2], none, none⟩
        ⟨true, true, true, 2, 2, true, true, false, []⟩).1 = ODR.hw ∧
    (storeLinux [7, 8] ⟨some [1, 2], none, none⟩
        ⟨true, true, true, 2, 2, true, true, false, []⟩).2.old = some [1, 2] ∧
    (storeLinux [7, 8] ⟨some [1, 2], none, none⟩
        ⟨true, true, true, 2, 2, true, true, false, []⟩).2.tmp =
      some ([7, 8] ++ crc16le (crc16_ccitt [7, 8] 0)) := by
  have h := storeLinux_commit_or_unchanged [7, 8] ⟨some [1, 2], none, none⟩
    ⟨true, true, true, 2, 2, true, true, true, []⟩
  have h2 := storeLinux_commit_or_unchanged [7, 8] ⟨some [1, 2], none, none⟩
    ⟨true, true, true, 2, 2, true, true, false, []⟩
  have hok := h.2.2.2.1 rfl rfl rfl (by decide) rfl rfl rfl
  have hfail := h2.2.2.2.2 rfl rfl rfl (by decide) rfl rfl rfl
  exact ⟨hok, (h.2.2.1 hok).1, (h.2.2.1 hok).2.2 [1, 2] rfl,
    hfail.1, hfail.2.2.2 [1, 2] rfl, hfail.2.1⟩

/-- C6: during init, for an entry whose file opened, the entry's memory is
overwritten from the file and the CRC recorded as baseline exactly when the
read delivered len + 2 bytes and the trailing little-endian CRC equals
CRC-16/CCITT over the first len bytes; a file whose content is exactly "-\n"
is treated as defaults requested, with no data-corrupt flag and no copy. -/
theorem storageInit_restore_iff (len : Nat) (mem0 : List Nat) (crc0 : Nat) (g junk : List Nat)
    (hlen : 1 ≤ len) :
    (g = [45, 10] →
      loadEntry len mem0 crc0 (some g) junk =
        { mem := mem0, crc := crc0, copied := false, dataCorrupt := false }) ∧
    ((loadEntry len mem0 crc0 (some g) junk).copied = true ↔
      (len + 2 ≤ g.length ∧
        leU16 (g.getD len 0) (g.getD (len + 1) 0) = crc16_ccitt (g.take len) 0)) ∧
    ((loadEntry len mem0 crc0 (some g) junk).copied = true →
      (loadEntry len mem0 crc0 (some g) junk).mem = g.take len ∧
      (loadEntry len mem0 crc0 (some g) junk).crc = crc16_ccitt (g.take len) 0 ∧
      (loadEntry len mem0 crc0 (some g) junk).dataCorrupt = false) := by
  have key : ∀ _ : len + 2 ≤ g.length,
      List.map (byteAt (g.take (len + 2) ++ junk)) (List.range len) = g.take len ∧
      byteAt (g.take (len + 2) ++ junk) len = g.getD len 0 ∧
      byteAt (g.take (len + 2) ++ junk) (len + 1) = g.getD (len + 1) 0 := by
    intro hg
    refine ⟨?_, byteAt_take_append g junk _ _ (by omega) hg,
      byteAt_take_append g junk _ _ (by omega) hg⟩
    rw [List.map_congr_left (fun i hi => byteAt_take_append g junk _ _
      (by have := List.mem_range.mp hi; omega) hg)]
    exact map_getD_range_take g len (by omega)
  simp only [loadEntry]
  split_ifs with hm hcrc
  · -- content starts with '-' and has exactly two bytes: defaults requested
    refine ⟨fun _ => rfl, ?_, fun h => by cases h⟩
    simp only [false_iff]
    intro ⟨hg, _⟩
    omega
  · -- CRC and count verified: restore
    obtain ⟨hc1, hc2⟩ := hcrc
    have hg : len + 2 ≤ g.length := by omega
    obtain ⟨t1, t2, t3⟩ := key hg
    refine ⟨fun hgv => ?_, ?_, fun _ => ⟨t1, by rw [t1], rfl⟩⟩
    · exfalso
      subst hgv
      simp at hg
      omega
    · simp only [true_iff]
      refine ⟨hg, ?_⟩
      rw [t2, t3] at hc1
      rw [← hc1, t1]
  · -- verification failed: no restore
    refine ⟨fun hgv => ?_, ?_, fun h => by cases h⟩
    · exfalso
      apply hm
      subst hgv
      constructor
      · simp
      · rw [List.take_of_length_le (by simp)]
        rfl
    · simp only [false_iff]
      intro ⟨hg, hcrceq⟩
      apply hcrc
      obtain ⟨t1, t2, t3⟩ := key hg
      refine ⟨?_, by omega⟩
      rw [t1, t2, t3, hcrceq]

/-- Witness for C6: a one-byte entry restores from a well-formed file, and a
"-\n" file leaves the defaults without a data-corrupt flag. -/
theorem storageInit_restore_witness :
    ((loadEntry 1 [0] 0 (some ([7] ++ crc16le (crc16_ccitt [7] 0))) []).copied = true ∧
      (loadEntry 1 [0] 0 (some ([7] ++ crc16le (crc16_ccitt [7] 0))) []).mem =
        ([7] ++ crc16le (crc16_ccitt [7] 0)).take 1) ∧
    loadEntry 1 [0] 0 (some [45, 10]) [] =
      { mem := [0], crc := 0, copied := false, dataCorrupt := false } := by
  have h := storageInit_restore_iff 1 [0] 0 ([7] ++ crc16le (crc16_ccitt [7] 0)) []
    (by decide)
  have h2 := storageInit_restore_iff 1 [0] 0 [45, 10] [] (by decide)
  have hc := h.2.1.mpr ⟨by decide, by decide⟩
  exact ⟨⟨hc, (h.2.2 hc).1⟩, h2.1 rfl⟩

/-- C7: an auto-save tick writes an entry's file exactly when the entry is
AUTO_SAVE with an open handle and the CRC over live memory differs from the
cached CRC; a full-length write updates the cached CRC (so a second tick with
unchanged memory performs zero write syscalls), and a short write sets the
error-mask bit at min(subIndexOD, 31) without touching the cached CRC. -/
theorem autoSave_write_iff_changed (e : AutoEntry) (o : AutoOracle) (es : List AutoEntry)
    (orc orc2 : Nat → AutoOracle) :
    ((autoEntryStep false e o).writeCalls > 0 ↔
      (e.auto = true ∧ e.fpOpen = true ∧ crc16_ccitt e.mem 0 ≠ e.crc)) ∧
    (e.auto = true → e.fpOpen = true →
      min o.written1 e.mem.length + min o.written2 2 = e.mem.length + 2 →
      (autoEntryStep false e o).entry.crc = crc16_ccitt e.mem 0) ∧
    (e.auto = true → e.fpOpen = true → crc16_ccitt e.mem 0 ≠ e.crc →
      min o.written1 e.mem.length + min o.written2 2 ≠ e.mem.length + 2 →
      (autoEntryStep false e o).errBits = 1 <<< min e.subIndexOD 31 ∧
      (autoEntryStep false e o).entry.crc = e.crc) ∧
    ((CO_storageLinux_auto_process false orc es 0).failed = 0 →
      (CO_storageLinux_auto_process false orc2
        (CO_storageLinux_auto_process false orc es 0).entries 0).writeCalls = 0) := by
  refine ⟨?_, ?_, ?_, fun h => auto_process_idem es orc orc2 0 0 h⟩
  · by_cases h1 : e.auto = true ∧ e.fpOpen = true
    · by_cases h2 : crc16_ccitt e.mem 0 = e.crc
      · simp [autoEntryStep, h1.1, h1.2, h2]
      · by_cases h3 : min o.written1 e.mem.length + min o.written2 2 = e.mem.length + 2 <;>
          simp [autoEntryStep, h1.1, h1.2, h2, h3]
    · simp only [autoEntryStep, if_pos h1]
      exact ⟨fun hgt => absurd hgt (by simp), fun hc => absurd ⟨hc.1, hc.2.1⟩ h1⟩
  · intro ha hb hsum
    by_cases h2 : crc16_ccitt e.mem 0 = e.crc <;>
      simp [autoEntryStep, ha, hb, h2, hsum]
  · intro ha hb h2 h3
    simp [autoEntryStep, ha, hb, h2, h3]

/-- Witness for C7: a dirty entry with a short write reports its error bit
and keeps the old cached CRC; after a successful save pass, a second pass
performs zero writes. -/
theorem autoSave_write_iff_changed_witness :
    (autoEntryStep false ⟨true, true, [5], 0, 3⟩ ⟨0, 0⟩).errBits = 1 <<< min 3 31 ∧
    (autoEntryStep false ⟨true, true, [5], 0, 3⟩ ⟨0, 0⟩).entry.crc = 0 ∧
    (CO_storageLinux_auto_process false (fun _ => ⟨1, 2⟩)
      (CO_storageLinux_auto_process false (fun _ => ⟨1, 2⟩)
        [⟨true, true, [5], 0, 3⟩] 0).entries 0).writeCalls = 0 := by
  have h := autoSave_write_iff_changed ⟨true, true, [5], 0, 3⟩ ⟨0, 0⟩
    [⟨true, true, [5], 0, 3⟩] (fun _ => ⟨1, 2⟩) (fun _ => ⟨1, 2⟩)
  have hd := h.2.2.1 rfl rfl (by decide) (by decide)
  exact ⟨hd.1, hd.2, h.2.2.2 (by decide)⟩

end CANopenLinux

namespace CANopenLinux

theorem rxMsgError_ack_step (hh : ErrH) (now : Ts) (hl : hh.listenOnly = false)
    (hc : hh.noackCounter + 1 ≤ 16) :
    CO_CANerror_rxMsgError hh ackFrame now =
      ⟨IfState.active, { hh with noackCounter := hh.noackCounter + 1 }, false⟩ := by
  have hmod : (hh.noackCounter + 1) % 4294967296 = hh.noackCounter + 1 :=
    Nat.mod_eq_of_lt (by omega)
  have b1 : (32 : Nat) &&& 64 = 0 := by decide
  have b2 : (32 : Nat) &&& 4 = 0 := by decide
  have b3 : (32 : Nat) &&& 32 = 32 := by decide
  have hng : ¬(CO_CANerror_NOACK_MAX < hh.noackCounter + 1) := by
    unfold CO_CANerror_NOACK_MAX
    omega
  simp [CO_CANerror_rxMsgError, CO_CANerrorBusoff, CO_CANerrorCrtl, CO_CANerrorNoack,
    ackFrame, CAN_ERR_ACK, CAN_ERR_BUSOFF, CAN_ERR_CRTL, hl, hmod, b1, b2, b3, hng]

theorem iterAck_le_max (now : Ts) (n : Nat) (hn : n ≤ CO_CANerror_NOACK_MAX) :
    iterAckFrames now n CO_CANerror_init = { CO_CANerror_init with noackCounter := n } := by
  induction n with
  | zero => rfl
  | succ k ih =>
    unfold CO_CANerror_NOACK_MAX at hn
    rw [iterAckFrames, ih (by unfold CO_CANerror_NOACK_MAX; omega),
      rxMsgError_ack_step _ now rfl (by show k + 1 ≤ 16; omega)]

theorem txMsg_within (h : ErrH) (now : Ts) (hl : h.listenOnly = true)
    (hb2 : h.timestamp.nsec < 1000000000) (hb3 : 0 ≤ now.nsec)
    (he : elapsedNs h.timestamp now ≤ 10000000000) :
    CO_CANerror_txMsg h now = (IfState.listenOnly, h) := by
  unfold CO_CANerror_txMsg
  rw [if_pos hl, if_neg]
  intro hcond
  have h10 : ((CO_CANerror_LISTEN_ONLY : Nat) : Int) = 10 := rfl
  rw [h10] at hcond
  unfold elapsedNs at he
  omega

theorem txMsg_active_elapsed (h : ErrH) (now : Ts) (hl : h.listenOnly = true)
    (hb2 : h.timestamp.nsec < 1000000000) (hb3 : 0 ≤ now.nsec)
    (hact : (CO_CANerror_txMsg h now).1 = IfState.active) :
    elapsedNs h.timestamp now > 10000000000 ∧
    (CO_CANerror_txMsg h now).2.listenOnly = false := by
  unfold CO_CANerror_txMsg at hact ⊢
  rw [if_pos hl] at hact ⊢
  by_cases hcond : h.timestamp.sec + (CO_CANerror_LISTEN_ONLY : Int) < now.sec
  · rw [if_pos hcond] at hact ⊢
    have h10 : ((CO_CANerror_LISTEN_ONLY : Nat) : Int) = 10 := rfl
    rw [h10] at hcond
    refine ⟨?_, by simp [CO_CANerrorClearListenOnly]⟩
    unfold elapsedNs
    omega
  · rw [if_neg hcond] at hact
    cases hact

/-- Counterexample for C2: with the code's strict comparison
noackCounter > CO_CANerror_NOACK_MAX, after the 16th consecutive ACK-miss
error frame from the initial state the monitor is still ACTIVE (the counter
is exactly 16), and the 17th transmission is permitted, not dropped,
contradicting scenario S4 as stated. -/
theorem noack_sixteenth_error_still_active :
    (iterAckFrames ⟨100, 0⟩ 16 CO_CANerror_init).listenOnly = false ∧
    (iterAckFrames ⟨100, 0⟩ 16 CO_CANerror_init).noackCounter = 16 ∧
    (CO_CANerror_txMsg (iterAckFrames ⟨100, 0⟩ 16 CO_CANerror_init) ⟨100, 0⟩).1 =
      IfState.active := by
  set_option maxRecDepth 4000 in decide

/-- C2 (amended): consecutive ACK-miss error frames increment the no-ack
counter; the monitor enters LISTEN_ONLY with interface reset exactly when the
counter exceeds N_noack_max = 16, hence on the 17th consecutive error, after
which a transmission within T_listen is dropped; ACK-miss while already
LISTEN_ONLY is ignored, and an error frame reaching the no-ack handler
without the ACK bit resets the counter to zero. -/
theorem noack_escalation_amended (now now' : Ts) (n : Nat) (h : ErrH) (msg : CanFrame) :
    (n ≤ 16 → iterAckFrames now n CO_CANerror_init =
      { CO_CANerror_init with noackCounter := n }) ∧
    (h.listenOnly = false → msg.canId &&& CAN_ERR_ACK ≠ 0 →
      (CO_CANerrorNoack h msg now).h.noackCounter = (h.noackCounter + 1) % 2 ^ 32 ∧
      ((h.noackCounter + 1) % 2 ^ 32 > CO_CANerror_NOACK_MAX →
        (CO_CANerrorNoack h msg now).state = IfState.listenOnly ∧
        (CO_CANerrorNoack h msg now).h.listenOnly = true ∧
        (CO_CANerrorNoack h msg now).reset = true) ∧
      ((h.noackCounter + 1) % 2 ^ 32 ≤ CO_CANerror_NOACK_MAX →
        (CO_CANerrorNoack h msg now).state = IfState.active ∧
        (CO_CANerrorNoack h msg now).h.listenOnly = false)) ∧
    (h.listenOnly = true → CO_CANerrorNoack h msg now = ⟨IfState.listenOnly, h, false⟩) ∧
    (h.listenOnly = false → msg.canId &&& CAN_ERR_ACK = 0 →
      CO_CANerrorNoack h msg now = ⟨IfState.active, { h with noackCounter := 0 }, false⟩) ∧
    ((iterAckFrames now 17 CO_CANerror_init).listenOnly = true ∧
      (iterAckFrames now 17 CO_CANerror_init).timestamp = now) ∧
    (h.timestamp.nsec < 1000000000 → 0 ≤ now'.nsec → h.listenOnly = true →
      elapsedNs h.timestamp now' ≤ 10 * 1000000000 →
      (CO_CANerror_txMsg h now').1 = IfState.listenOnly) := by
  refine ⟨fun hn => iterAck_le_max now n hn, ?_, ?_, ?_, ?_,
    fun hb2 hb3 hl he => by rw [txMsg_within h now' hl hb2 hb3 (by omega)]⟩
  · intro hl hack
    unfold CO_CANerrorNoack
    rw [if_neg (by simp [hl]), if_pos hack]
    by_cases hgt : CO_CANerror_NOACK_MAX < (h.noackCounter + 1) % 2 ^ 32
    · rw [if_pos hgt]
      refine ⟨rfl, fun _ => ⟨rfl, rfl, rfl⟩, fun hle => ?_⟩
      exact absurd hgt (by omega)
    · rw [if_neg hgt]
      exact ⟨rfl, fun hgt2 => absurd hgt2 (by omega), fun _ => ⟨rfl, hl⟩⟩
  · intro hl
    unfold CO_CANerrorNoack
    rw [if_pos hl]
  · intro hl hnoack
    unfold CO_CANerrorNoack
    rw [if_neg (by simp [hl]), if_neg (by simp [hnoack])]
  · rw [show (17 : Nat) = 16 + 1 from rfl, iterAckFrames,
      iterAck_le_max now 16 (by unfold CO_CANerror_NOACK_MAX; omega)]
    have b1 : (32 : Nat) &&& 64 = 0 := by decide
    have b2 : (32 : Nat) &&& 4 = 0 := by decide
    have b3 : (32 : Nat) &&& 32 = 32 := by decide
    simp [CO_CANerror_rxMsgError, CO_CANerrorBusoff, CO_CANerrorCrtl, CO_CANerrorNoack,
      CO_CANerrorSetListenOnly, ackFrame, CAN_ERR_ACK, CAN_ERR_BUSOFF, CAN_ERR_CRTL,
      CO_CANerror_init, CO_CANerror_NOACK_MAX, b1, b2, b3]

/-- Witness for C2: after the 16th consecutive ACK error the counter is 16,
after the 17th the monitor is LISTEN_ONLY, and a transmission five seconds
later is dropped. -/
theorem noack_escalation_amended_witness :
    (iterAckFrames ⟨100, 0⟩ 16 CO_CANerror_init).noackCounter = 16 ∧
    (iterAckFrames ⟨100, 0⟩ 17 CO_CANerror_init).listenOnly = true ∧
    (CO_CANerror_txMsg (iterAckFrames ⟨100, 0⟩ 17 CO_CANerror_init) ⟨105, 0⟩).1 =
      IfState.listenOnly := by
  have h := noack_escalation_amended ⟨100, 0⟩ ⟨105, 0⟩ 16
    (iterAckFrames ⟨100, 0⟩ 17 CO_CANerror_init) ackFrame
  have hts := (h.2.2.2.2.1).2
  refine ⟨by rw [h.1 (by omega)], (h.2.2.2.2.1).1, ?_⟩
  exact h.2.2.2.2.2 (by rw [hts]; decide) (by decide) (h.2.2.2.2.1).1
    (by rw [hts]; decide)

/-- C3: any received data frame clears LISTEN_ONLY immediately and resets the
no-ack counter; a TX query returns LISTEN_ONLY and keeps the flag whenever at
most T_listen = 10 seconds have elapsed since entry, and clears the flag and
returns ACTIVE only when more than 10 seconds have elapsed. -/
theorem listenOnly_timing (h : ErrH) (now : Ts)
    (hb2 : h.timestamp.nsec < 1000000000) (hb3 : 0 ≤ now.nsec) :
    ((CO_CANerror_rxMsg h).listenOnly = false ∧ (CO_CANerror_rxMsg h).noackCounter = 0) ∧
    (h.listenOnly = true → elapsedNs h.timestamp now ≤ 10 * 1000000000 →
      CO_CANerror_txMsg h now = (IfState.listenOnly, h)) ∧
    (h.listenOnly = true → (CO_CANerror_txMsg h now).1 = IfState.active →
      elapsedNs h.timestamp now > 10 * 1000000000 ∧
      (CO_CANerror_txMsg h now).2.listenOnly = false) := by
  refine ⟨?_, fun hl he => txMsg_within h now hl hb2 hb3 (by omega),
    fun hl hact => ⟨by have := (txMsg_active_elapsed h now hl hb2 hb3 hact).1; omega,
      (txMsg_active_elapsed h now hl hb2 hb3 hact).2⟩⟩
  unfold CO_CANerror_rxMsg CO_CANerrorClearListenOnly
  split_ifs with h1 <;> simp_all

/-- Witness for C3: a TX query exactly ten seconds after entering LISTEN_ONLY
still returns LISTEN_ONLY, and a data frame clears the state. -/
theorem listenOnly_timing_witness :
    CO_CANerror_txMsg ⟨3, true, ⟨5, 0⟩, 0⟩ ⟨15, 0⟩ =
      (IfState.listenOnly, ⟨3, true, ⟨5, 0⟩, 0⟩) ∧
    (CO_CANerror_rxMsg ⟨3, true, ⟨5, 0⟩, 0⟩).listenOnly = false := by
  have h := listenOnly_timing ⟨3, true, ⟨5, 0⟩, 0⟩ ⟨15, 0⟩ (by decide) (by decide)
  exact ⟨h.2.1 rfl (by decide), h.1.1⟩

end CANopenLinux

namespace CANopenLinux

/-- C4: CO_epoll_processLast calls timerfd_settime exactly when the iteration
lowered timerNext_us strictly below timerInterval_us; when it does, the next
expiration is armed at timerNext_us plus one microsecond while the periodic
interval fields are left untouched (CO_epoll_create sets them to the
configured interval), and when timerNext_us is not below the interval the
timer is left alone. -/
theorem CO_epoll_processLast_rearm (ep : Epoll)
    (hI : ep.timerInterval_us < 2 ^ 32)
    (hv : ep.timerInterval_us < 1000000 → ep.tm.vSec = 0) :
    ((CO_epoll_processLast ep).2 = true ↔ ep.timerNext_us < ep.timerInterval_us) ∧
    (ep.timerNext_us < ep.timerInterval_us →
      armedNs (CO_epoll_processLast ep).1.tm = (ep.timerNext_us + 1) * 1000 ∧
      (CO_epoll_processLast ep).1.tm.ivSec = ep.tm.ivSec ∧
      (CO_epoll_processLast ep).1.tm.ivNsec = ep.tm.ivNsec) ∧
    (¬ep.timerNext_us < ep.timerInterval_us →
      (CO_epoll_processLast ep).1.tm = ep.tm ∧ (CO_epoll_processLast ep).2 = false) ∧
    ((CO_epoll_processLast ep).1.timerInterval_us = ep.timerInterval_us ∧
      ((CO_epoll_processLast ep).1.timerInterval_us < 1000000 →
        (CO_epoll_processLast ep).1.tm.vSec = 0)) ∧
    (intervalNs (CO_epoll_create_tm ep.timerInterval_us) = ep.timerInterval_us * 1000 ∧
      (ep.timerInterval_us < 1000000 → (CO_epoll_create_tm ep.timerInterval_us).vSec = 0)) := by
  obtain ⟨en, tn, ti, tm⟩ := ep
  simp only at hI hv ⊢
  have hcreate : intervalNs (CO_epoll_create_tm ti) = ti * 1000 ∧
      (ti < 1000000 → (CO_epoll_create_tm ti).vSec = 0) := by
    refine ⟨?_, fun _ => rfl⟩
    unfold intervalNs CO_epoll_create_tm
    simp only
    omega
  by_cases hlt : tn < ti
  · have hmod : (tn + 1) % 2 ^ 32 = tn + 1 := Nat.mod_eq_of_lt (by omega)
    by_cases hsmall : ti < 1000000
    · have hv0 : tm.vSec = 0 := hv hsmall
      have hres : CO_epoll_processLast ⟨en, tn, ti, tm⟩ =
          (⟨false, tn + 1, ti, { tm with vNsec := (tn + 1) * 1000 }⟩, true) := by
        cases en <;>
          simp only [CO_epoll_processLast, if_pos hlt, if_pos hsmall, if_neg, hmod,
            Bool.false_eq_true, if_false, if_true]
      rw [hres]
      refine ⟨by simp [hlt], fun _ => ⟨?_, rfl, rfl⟩, fun hc => absurd hlt hc,
        ⟨rfl, fun _ => hv0⟩, hcreate⟩
      unfold armedNs
      simp only [hv0]
      omega
    · have hres : CO_epoll_processLast ⟨en, tn, ti, tm⟩ =
          (⟨false, tn + 1, ti,
            { tm with
              vSec := (tn + 1) / 1000000
              vNsec := (tn + 1) % 1000000 * 1000 }⟩, true) := by
        cases en <;>
          simp only [CO_epoll_processLast, if_pos hlt, if_neg hsmall, hmod,
            Bool.false_eq_true, if_false, if_true]
      rw [hres]
      refine ⟨by simp [hlt], fun _ => ⟨?_, rfl, rfl⟩, fun hc => absurd hlt hc,
        ⟨rfl, fun hc => absurd hc hsmall⟩, hcreate⟩
      unfold armedNs
      simp only
      omega
  · have hres : CO_epoll_processLast ⟨en, tn, ti, tm⟩ = (⟨false, tn, ti, tm⟩, false) := by
      cases en <;> simp only [CO_epoll_processLast, if_neg hlt, Bool.false_eq_true,
        if_false, if_true]
    rw [hres]
    exact ⟨by simp [hlt], fun hc => absurd hc hlt, fun _ => ⟨rfl, rfl⟩,
      ⟨rfl, fun hc => hv hc⟩, hcreate⟩


/-- Witness for C4: with interval 1000 us and timerNext lowered to 500 us the
timer is re-armed at 501 us. -/
theorem CO_epoll_processLast_rearm_witness :
    (CO_epoll_processLast ⟨false, 500, 1000, ⟨0, 1000000, 0, 1⟩⟩).2 = true ∧
    armedNs (CO_epoll_processLast ⟨false, 500, 1000, ⟨0, 1000000, 0, 1⟩⟩).1.tm = 501 * 1000 := by
  have h := CO_epoll_processLast_rearm ⟨false, 500, 1000, ⟨0, 1000000, 0, 1⟩⟩
    (by decide) (fun _ => rfl)
  exact ⟨h.1.mpr (by decide), (h.2.1 (by decide)).1⟩

end CANopenLinux

namespace CANopenLinux

/-- C5: in single-interface mode, when the buffer is already full CO_CANsend
reports TX overflow (status bit and TX_OVERFLOW return on a completed send)
but still attempts the send; a write of exactly CAN_MTU clears bufferFull and
decrements CANtxCount when the flag was set and changes nothing otherwise;
errno EINTR, EAGAIN or ENOBUFS sets bufferFull, increments CANtxCount only on
the false-to-true transition and returns TX_BUSY; any other failure returns
SYSCALL leaving bufferFull and CANtxCount unchanged. -/
theorem CO_CANsend_single_outcomes (m : TxModule) (i : Nat) (o : SendOutcome) :
    (getB m.tx i = true →
      (CO_CANsend m i o).2.status = m.status ||| CO_CAN_ERRTX_OVERFLOW ∨
      (CO_CANsend m i o).2.status =
        m.status ||| CO_CAN_ERRTX_OVERFLOW ||| CO_CAN_ERRTX_OVERFLOW) ∧
    (getB m.tx i = true → o.errno = 0 → o.n = CAN_MTU →
      (CO_CANsend m i o).1 = COErr.txOverflow ∧
      (CO_CANsend m i o).2.tx = m.tx.set i false ∧
      (1 ≤ m.count → m.count < 65536 → (CO_CANsend m i o).2.count = m.count - 1)) ∧
    (getB m.tx i = false → o.errno = 0 → o.n = CAN_MTU →
      CO_CANsend m i o = (COErr.no, m)) ∧
    ((o.errno = EINTR ∨ o.errno = EAGAIN ∨ o.errno = ENOBUFS) →
      (CO_CANsend m i o).1 = COErr.txBusy ∧
      (getB m.tx i = false →
        (CO_CANsend m i o).2.tx = m.tx.set i true ∧
        (m.count < 65535 → (CO_CANsend m i o).2.count = m.count + 1)) ∧
      (getB m.tx i = true →
        (CO_CANsend m i o).2.tx = m.tx ∧ (CO_CANsend m i o).2.count = m.count)) ∧
    (¬(o.errno = 0 ∧ o.n = CAN_MTU) →
      ¬(o.errno = EINTR ∨ o.errno = EAGAIN ∨ o.errno = ENOBUFS) →
      (CO_CANsend m i o).1 = COErr.syscall ∧
      (CO_CANsend m i o).2.tx = m.tx ∧ (CO_CANsend m i o).2.count = m.count) := by
  obtain ⟨tx, count, status⟩ := m
  obtain ⟨errno, n⟩ := o
  simp only
  refine ⟨?_, ?_, ?_, ?_, ?_⟩
  · intro hfull
    by_cases hs : errno = 0 ∧ n = CAN_MTU
    · left
      simp [CO_CANsend, hfull, hs.1, hs.2]
    · by_cases hb : errno = EINTR ∨ errno = EAGAIN ∨ errno = ENOBUFS
      · left
        simp only [CO_CANsend]
        rw [if_neg (by simpa using hs), if_pos hb]
        simp [hfull]
      · right
        simp only [CO_CANsend]
        rw [if_neg (by simpa using hs), if_neg hb]
        simp [hfull]
  · intro hfull h0 hn
    have hres : CO_CANsend ⟨tx, count, status⟩ i ⟨errno, n⟩ =
        (COErr.txOverflow,
          ⟨tx.set i false, dec16 count, status ||| CO_CAN_ERRTX_OVERFLOW⟩) := by
      simp [CO_CANsend, hfull, h0, hn]
    rw [hres]
    refine ⟨rfl, rfl, fun h1 h2 => ?_⟩
    show dec16 count = count - 1
    unfold dec16
    omega
  · intro hfull h0 hn
    simp [CO_CANsend, hfull, h0, hn]
  · intro hb
    have hs : ¬(errno = 0 ∧ n = CAN_MTU) := by
      unfold EINTR EAGAIN ENOBUFS at hb
      rintro ⟨h0, -⟩
      omega
    by_cases hfull : getB tx i = true
    · have hres : CO_CANsend ⟨tx, count, status⟩ i ⟨errno, n⟩ =
          (COErr.txBusy, ⟨tx, count, status ||| CO_CAN_ERRTX_OVERFLOW⟩) := by
        simp only [CO_CANsend]
        rw [if_neg (by simpa using hs), if_pos hb]
        simp [hfull]
      rw [hres]
      exact ⟨rfl, fun hc => (by rw [hfull] at hc; cases hc), fun _ => ⟨rfl, rfl⟩⟩
    · have hfull' : getB tx i = false := by
        cases hx : getB tx i
        · rfl
        · exact absurd hx hfull
      have hres : CO_CANsend ⟨tx, count, status⟩ i ⟨errno, n⟩ =
          (COErr.txBusy, ⟨tx.set i true, inc16 count, status⟩) := by
        simp only [CO_CANsend]
        rw [if_neg (by simpa using hs), if_pos hb]
        simp [hfull']
      rw [hres]
      refine ⟨rfl, fun _ => ⟨rfl, fun hlt => ?_⟩,
        fun hc => (by rw [hfull'] at hc; cases hc)⟩
      show inc16 count = count + 1
      unfold inc16
      omega
  · intro hs hb
    by_cases hfull : getB tx i = true
    · have hres : CO_CANsend ⟨tx, count, status⟩ i ⟨errno, n⟩ =
          (COErr.syscall,
            ⟨tx, count, status ||| CO_CAN_ERRTX_OVERFLOW ||| CO_CAN_ERRTX_OVERFLOW⟩) := by
        simp only [CO_CANsend]
        rw [if_neg (by simpa using hs), if_neg hb]
        simp [hfull]
      rw [hres]
      exact ⟨rfl, rfl, rfl⟩
    · have hfull' : getB tx i = false := by
        cases hx : getB tx i
        · rfl
        · exact absurd hx hfull
      have hres : CO_CANsend ⟨tx, count, status⟩ i ⟨errno, n⟩ =
          (COErr.syscall, ⟨tx, count, status ||| CO_CAN_ERRTX_OVERFLOW⟩) := by
        simp only [CO_CANsend]
        rw [if_neg (by simpa using hs), if_neg hb]
        simp [hfull']
      rw [hres]
      exact ⟨rfl, rfl, rfl⟩

/-- Witness for C5: a full buffer whose retry succeeds returns TX overflow
and drops the counter to zero; an EAGAIN on an empty buffer marks it full and
counts it. -/
theorem CO_CANsend_single_outcomes_witness :
    ((CO_CANsend ⟨[true], 1, 0⟩ 0 ⟨0, 16⟩).1 = COErr.txOverflow ∧
      (CO_CANsend ⟨[true], 1, 0⟩ 0 ⟨0, 16⟩).2.tx = [false] ∧
      (CO_CANsend ⟨[true], 1, 0⟩ 0 ⟨0, 16⟩).2.count = 0) ∧
    ((CO_CANsend ⟨[false], 0, 0⟩ 0 ⟨11, -1⟩).1 = COErr.txBusy ∧
      (CO_CANsend ⟨[false], 0, 0⟩ 0 ⟨11, -1⟩).2.tx = [true] ∧
      (CO_CANsend ⟨[false], 0, 0⟩ 0 ⟨11, -1⟩).2.count = 1) := by
  have h1 := CO_CANsend_single_outcomes ⟨[true], 1, 0⟩ 0 ⟨0, 16⟩
  have h2 := CO_CANsend_single_outcomes ⟨[false], 0, 0⟩ 0 ⟨11, -1⟩
  have hov := h1.2.1 (by decide) rfl rfl
  have hbusy := h2.2.2.2.1 (by decide)
  have hset := hbusy.2.1 (by decide)
  exact ⟨⟨hov.1, by simpa using hov.2.1, by simpa using hov.2.2 (by decide) (by decide)⟩,
    hbusy.1, by simpa using hset.1, by simpa using hset.2 (by decide)⟩

end CANopenLinux

namespace CANopenLinux

theorem countFull_cons (b : Bool) (l : List Bool) :
    countFull (b :: l) = (if b then 1 else 0) + countFull l := by
  cases b <;> (simp [countFull, List.filter_cons]; try omega)

theorem getB_cons_zero (b : Bool) (l : List Bool) : getB (b :: l) 0 = b := rfl

theorem getB_cons_succ (b : Bool) (l : List Bool) (j : Nat) :
    getB (b :: l) (j + 1) = getB l j := rfl

theorem countFull_le (l : List Bool) : countFull l ≤ l.length := by
  induction l with
  | nil => simp [countFull]
  | cons b rest ih =>
    rw [countFull_cons]
    cases b <;> simp <;> omega

theorem countFull_pos_of_getB (l : List Bool) (i : Nat) (h : getB l i = true) :
    1 ≤ countFull l := by
  induction l generalizing i with
  | nil => simp [getB] at h
  | cons b rest ih =>
    rw [countFull_cons]
    cases i with
    | zero => rw [getB_cons_zero] at h; simp [h]
    | succ j =>
      rw [getB_cons_succ] at h
      have := ih j h
      omega

theorem countFull_lt_of_getB_false (l : List Bool) (i : Nat) (hi : i < l.length)
    (h : getB l i = false) : countFull l < l.length := by
  induction l generalizing i with
  | nil => simp at hi
  | cons b rest ih =>
    rw [countFull_cons]
    cases i with
    | zero =>
      rw [getB_cons_zero] at h
      subst h
      have := countFull_le rest
      simp
      omega
    | succ j =>
      rw [getB_cons_succ] at h
      simp at hi
      have := ih j hi h
      cases b <;> simp <;> omega

theorem countFull_set_false (l : List Bool) (i : Nat) (h : getB l i = true) :
    countFull (l.set i false) + 1 = countFull l := by
  induction l generalizing i with
  | nil => simp [getB] at h
  | cons b rest ih =>
    cases i with
    | zero =>
      rw [getB_cons_zero] at h
      subst h
      simp [List.set, countFull_cons]
      omega
    | succ j =>
      rw [getB_cons_succ] at h
      simp only [List.set, countFull_cons]
      have := ih j h
      omega

theorem countFull_set_true (l : List Bool) (i : Nat) (hi : i < l.length)
    (h : getB l i = false) : countFull (l.set i true) = countFull l + 1 := by
  induction l generalizing i with
  | nil => simp at hi
  | cons b rest ih =>
    cases i with
    | zero =>
      rw [getB_cons_zero] at h
      subst h
      simp [List.set, countFull_cons]
      omega
    | succ j =>
      rw [getB_cons_succ] at h
      simp at hi
      simp only [List.set, countFull_cons]
      have := ih j hi h
      omega

theorem firstFull_none_iff (l : List Bool) : firstFull l = none ↔ countFull l = 0 := by
  induction l with
  | nil => simp [firstFull, countFull]
  | cons b rest ih =>
    rw [countFull_cons]
    cases b
    · simp only [firstFull, Bool.false_eq_true, if_false]
      rw [show ((firstFull rest).map (· + 1) = none) ↔ (firstFull rest = none) from by
        cases firstFull rest <;> simp]
      rw [ih]
      simp
    · simp [firstFull]

theorem firstFull_some_spec (l : List Bool) (i : Nat) (h : firstFull l = some i) :
    getB l i = true ∧ i < l.length := by
  induction l generalizing i with
  | nil => simp [firstFull] at h
  | cons b rest ih =>
    cases b
    · simp only [firstFull, Bool.false_eq_true, if_false] at h
      cases hf : firstFull rest with
      | none => rw [hf] at h; simp at h
      | some j =>
        rw [hf] at h
        simp at h
        obtain ⟨hg, hl⟩ := ih j hf
        subst h
        exact ⟨hg, by simpa using Nat.succ_lt_succ hl⟩
    · simp [firstFull] at h
      subst h
      exact ⟨rfl, by simp⟩

theorem getB_set_ne (l : List Bool) (i j : Nat) (b : Bool) (h : j ≠ i) :
    getB (l.set i b) j = getB l j := by
  unfold getB
  rw [List.getD, List.getD, List.get?_eq_getElem?, List.get?_eq_getElem?,
    List.getElem?_set_ne (by omega)]

end CANopenLinux

namespace CANopenLinux

theorem CANsend_preserves_inv (m : TxModule) (i : Nat) (o : SendOutcome)
    (hP : txInv m) (hi : i < m.tx.length) (hlen : m.tx.length < 65536) :
    txInv (CO_CANsend m i o).2 := by
  obtain ⟨tx, count, status⟩ := m
  unfold txInv at hP ⊢
  simp only at hP hi hlen ⊢
  by_cases hfull : getB tx i = true
  · by_cases hs : o.errno = 0 ∧ o.n = CAN_MTU
    · have h1 := countFull_pos_of_getB tx i hfull
      have h2 := countFull_le tx
      have h3 := countFull_set_false tx i hfull
      have hres : (CO_CANsend ⟨tx, count, status⟩ i o).2 =
          ⟨tx.set i false, dec16 count, status ||| CO_CAN_ERRTX_OVERFLOW⟩ := by
        simp [CO_CANsend, hfull, hs.1, hs.2]
      rw [hres]
      show dec16 count = countFull (tx.set i false)
      unfold dec16
      omega
    · by_cases hb : o.errno = EINTR ∨ o.errno = EAGAIN ∨ o.errno = ENOBUFS
      · have hres : (CO_CANsend ⟨tx, count, status⟩ i o).2 =
            ⟨tx, count, status ||| CO_CAN_ERRTX_OVERFLOW⟩ := by
          simp only [CO_CANsend]
          rw [if_neg (by simpa using hs), if_pos hb]
          simp [hfull]
        rw [hres]
        exact hP
      · have hres : (CO_CANsend ⟨tx, count, status⟩ i o).2 =
            ⟨tx, count, status ||| CO_CAN_ERRTX_OVERFLOW ||| CO_CAN_ERRTX_OVERFLOW⟩ := by
          simp only [CO_CANsend]
          rw [if_neg (by simpa using hs), if_neg hb]
          simp [hfull]
        rw [hres]
        exact hP
  · have hfull' : getB tx i = false := by
      cases hx : getB tx i
      · rfl
      · exact absurd hx hfull
    by_cases hs : o.errno = 0 ∧ o.n = CAN_MTU
    · have hres : (CO_CANsend ⟨tx, count, status⟩ i o).2 = ⟨tx, count, status⟩ := by
        simp [CO_CANsend, hfull', hs.1, hs.2]
      rw [hres]
      exact hP
    · by_cases hb : o.errno = EINTR ∨ o.errno = EAGAIN ∨ o.errno = ENOBUFS
      · have h1 := countFull_lt_of_getB_false tx i hi hfull'
        have h2 := countFull_set_true tx i hi hfull'
        have hres : (CO_CANsend ⟨tx, count, status⟩ i o).2 =
            ⟨tx.set i true, inc16 count, status⟩ := by
          simp only [CO_CANsend]
          rw [if_neg (by simpa using hs), if_pos hb]
          simp [hfull']
        rw [hres]
        show inc16 count = countFull (tx.set i true)
        unfold inc16
        omega
      · have hres : (CO_CANsend ⟨tx, count, status⟩ i o).2 =
            ⟨tx, count, status ||| CO_CAN_ERRTX_OVERFLOW⟩ := by
          simp only [CO_CANsend]
          rw [if_neg (by simpa using hs), if_neg hb]
          simp [hfull']
        rw [hres]
        exact hP

theorem process_preserves_inv (m : TxModule) (o : SendOutcome)
    (hP : txInv m) (hlen : m.tx.length < 65536) : txInv (CO_CANmodule_process m o) := by
  unfold CO_CANmodule_process
  by_cases hc : m.count > 0
  · rw [if_pos hc]
    cases hf : firstFull m.tx with
    | none =>
      simp only
      unfold txInv at hP ⊢
      simp only
      rw [(firstFull_none_iff m.tx).mp hf] at hP ⊢
    | some i =>
      simp only
      obtain ⟨hg, hil⟩ := firstFull_some_spec m.tx i hf
      have h1 := countFull_pos_of_getB m.tx i hg
      have h2 := countFull_le m.tx
      have h3 := countFull_set_false m.tx i hg
      apply CANsend_preserves_inv
      · unfold txInv at hP ⊢
        simp only
        show dec16 m.count = countFull (m.tx.set i false)
        unfold dec16
        omega
      · simpa using hil
      · simpa using hlen
  · rw [if_neg hc]
    exact hP

theorem process_resets_count (m : TxModule) (o : SendOutcome)
    (hc : m.count > 0) (h0 : countFull m.tx = 0) :
    (CO_CANmodule_process m o).count = 0 := by
  unfold CO_CANmodule_process
  rw [if_pos hc, (firstFull_none_iff m.tx).mpr h0]

theorem CANsend_tx_cases (m : TxModule) (i : Nat) (o : SendOutcome) :
    (CO_CANsend m i o).2.tx = m.tx ∨ (CO_CANsend m i o).2.tx = m.tx.set i false ∨
    (CO_CANsend m i o).2.tx = m.tx.set i true := by
  by_cases hfull : getB m.tx i = true <;>
    (simp only [CO_CANsend, hfull]; split_ifs <;> simp)

theorem process_touches_first_only (m : TxModule) (o : SendOutcome) (i j : Nat)
    (hf : firstFull m.tx = some i) (hj : j ≠ i) :
    getB (CO_CANmodule_process m o).tx j = getB m.tx j := by
  unfold CO_CANmodule_process
  by_cases hc : m.count > 0
  · rw [if_pos hc, hf]
    simp only
    rcases CANsend_tx_cases ⟨m.tx.set i false, dec16 m.count, m.status⟩ i o with h | h | h <;>
      rw [h] <;>
      simp only [List.set_set] <;>
      exact getB_set_ne _ _ _ _ hj
  · rw [if_neg hc]

/-- Counterexample for C10: CO_CANmodule_init zeroes CANtxCount but does not
clear the supplied tx buffers' bufferFull flags, so with a dirty tx array the
predicate "CANtxCount equals the number of bufferFull buffers" does not hold
after init. -/
theorem CO_CANmodule_init_dirty_counterexample :
    (CO_CANmodule_init_tx [true]).count = 0 ∧
    countFull (CO_CANmodule_init_tx [true]).tx = 1 ∧
    ¬txInv (CO_CANmodule_init_tx [true]) := by
  refine ⟨rfl, rfl, ?_⟩
  unfold txInv CO_CANmodule_init_tx countFull
  decide

/-- C10 (amended): the predicate "CANtxCount equals the number of tx buffers
with bufferFull set" holds after CO_CANmodule_init provided every supplied tx
buffer has bufferFull cleared (init zeroes the counter but leaves the flags
untouched); it is preserved by CO_CANsend on any in-range buffer and by
CO_CANmodule_process; process retries at most the first bufferFull slot per
call, leaving every other slot's flag unchanged, and forces CANtxCount to 0
whenever it is positive with no buffer marked bufferFull. -/
theorem txCount_invariant_amended (tx0 : List Bool) (m : TxModule) (i j : Nat)
    (o o2 : SendOutcome) :
    ((∀ b ∈ tx0, b = false) → txInv (CO_CANmodule_init_tx tx0)) ∧
    (txInv m → i < m.tx.length → m.tx.length < 65536 → txInv (CO_CANsend m i o).2) ∧
    (txInv m → m.tx.length < 65536 → txInv (CO_CANmodule_process m o2)) ∧
    (m.count > 0 → countFull m.tx = 0 → (CO_CANmodule_process m o2).count = 0) ∧
    (firstFull m.tx = some i → j ≠ i →
      getB (CO_CANmodule_process m o2).tx j = getB m.tx j) := by
  refine ⟨?_, fun hP hi hl => CANsend_preserves_inv m i o hP hi hl,
    fun hP hl => process_preserves_inv m o2 hP hl,
    fun hc h0 => process_resets_count m o2 hc h0,
    fun hf hj => process_touches_first_only m o2 i j hf hj⟩
  intro hall
  unfold txInv CO_CANmodule_init_tx
  simp only
  have hz : countFull tx0 = 0 := by
    unfold countFull
    rw [List.length_eq_zero, List.filter_eq_nil_iff]
    intro a ha
    simp [hall a ha]
  omega

/-- Witness for C10: the invariant holds after init on a clean array, is kept
by a busy send, and a drifted counter with no full buffers resets to zero. -/
theorem txCount_invariant_amended_witness :
    txInv (CO_CANmodule_init_tx [false, false]) ∧
    txInv (CO_CANsend ⟨[false], 0, 0⟩ 0 ⟨11, -1⟩).2 ∧
    (CO_CANmodule_process ⟨[false], 5, 0⟩ ⟨0, 16⟩).count = 0 := by
  have h1 := txCount_invariant_amended [false, false] ⟨[false], 0, 0⟩ 0 0
    ⟨11, -1⟩ ⟨0, 16⟩
  have h2 := txCount_invariant_amended [] ⟨[false], 5, 0⟩ 0 0 ⟨0, 16⟩ ⟨0, 16⟩
  exact ⟨h1.1 (by decide), h1.2.1 (by rfl) (by decide) (by decide),
    h2.2.2.2.1 (by decide) (by rfl)⟩

end CANopenLinux

namespace CANopenLinux

theorem rxScan_first (frameId : Nat) (slots : List RxSlot) (i : Nat)
    (hi : i < slots.length)
    (hfirst : ∀ j, j < i → rxMatch frameId (slots.getD j rxSlotDefault) = false)
    (hmatch : rxMatch frameId (slots.getD i rxSlotDefault) = true) :
    rxScan frameId slots = some i := by
  induction slots generalizing i with
  | nil => simp at hi
  | cons s rest ih =>
    cases i with
    | zero =>
      simp only [List.getD_cons_zero] at hmatch
      simp [rxScan, hmatch]
    | succ k =>
      have h0 : rxMatch frameId s = false := by
        have := hfirst 0 (by omega)
        simpa using this
      have hrec : rxScan frameId rest = some k := by
        refine ih k (by simpa using hi) (fun j hj => ?_) (by simpa using hmatch)
        have := hfirst (j + 1) (by omega)
        simpa using this
      simp [rxScan, h0, hrec]

/-- Counterexample for C8: the dispatch is a linear scan stopping at the
first match, so a frame that matches slot 1's filter but also matches slot 0
invokes slot 0's callback, and slot 1's registered callback is invoked zero
times, not exactly once. -/
theorem CO_CANrxMsg_earlier_match_counterexample :
    rxMatch 5 (CO_CANrxBufferInit 5 0x7FF false (some 1)) = true ∧
    CO_CANrxMsg [CO_CANrxBufferInit 5 0 false (some 0),
      CO_CANrxBufferInit 5 0x7FF false (some 1)] 5 = (0, [0]) := by decide

/-- C8 (amended): CO_CANrxBufferInit stores ident = (id & CAN_SFF_MASK) |
(rtr ? CAN_RTR_FLAG : 0) and mask = (mask & CAN_SFF_MASK) | CAN_EFF_FLAG |
CAN_RTR_FLAG; a received data frame F with (F.id XOR slot.ident) AND
slot.mask == 0 invokes slot i's registered callback exactly once provided no
earlier slot of the linear scan also matches F and the callback is non-NULL,
the dispatch calling only the first matching slot's callback. -/
theorem rxBufferInit_dispatch_amended (ident mask : Nat) (rtr : Bool) (cb : Option Nat)
    (slots : List RxSlot) (i frameId : Nat) (s : RxSlot) (c : Nat) :
    ((CO_CANrxBufferInit ident mask rtr cb).ident =
        ident &&& CAN_SFF_MASK ||| (if rtr then CAN_RTR_FLAG else 0) ∧
      (CO_CANrxBufferInit ident mask rtr cb).mask =
        mask &&& CAN_SFF_MASK ||| CAN_EFF_FLAG ||| CAN_RTR_FLAG ∧
      (CO_CANrxBufferInit ident mask rtr cb).callback = cb) ∧
    (slots.getD i rxSlotDefault = s → i < slots.length → rxMatch frameId s = true →
      (∀ j, j < i → rxMatch frameId (slots.getD j rxSlotDefault) = false) →
      s.callback = some c →
      CO_CANrxMsg slots frameId = ((i : Int), [c])) := by
  refine ⟨⟨rfl, rfl, rfl⟩, fun hs hi hm hfirst hc => ?_⟩
  have hscan : rxScan frameId slots = some i :=
    rxScan_first frameId slots i hi hfirst (by rw [hs]; exact hm)
  unfold CO_CANrxMsg
  rw [hscan]
  show ((i : Int), (slots.getD i rxSlotDefault).callback.toList) = ((i : Int), [c])
  rw [hs, hc]
  rfl

/-- Witness for C8: a frame matching a single configured slot invokes its
callback exactly once. -/
theorem rxBufferInit_dispatch_amended_witness :
    CO_CANrxMsg [CO_CANrxBufferInit 5 0x7FF false (some 1)] 5 = (0, [1]) := by
  have h := rxBufferInit_dispatch_amended 5 0x7FF false (some 1)
    [CO_CANrxBufferInit 5 0x7FF false (some 1)] 0 5
    (CO_CANrxBufferInit 5 0x7FF false (some 1)) 1
  exact h.2 rfl (by decide) (by decide) (fun j hj => absurd hj (by omega)) rfl

end CANopenLinux

namespace CANopenLinux

/-- Counterexample for C9: the code tests the first byte with isgraph, not
isprint, so the chunk " \n" - whose first byte, the space, is printable and
neither opening bracket nor hash, which ends in a newline and arrives with
the fresh-command flag set and ample space - is passed through unmodified
instead of receiving the "[0] " prefix the claim requires. -/
theorem processGtw_stdio_space_counterexample :
    isprintB 32 = true ∧ (32 : Nat) ≠ 91 ∧ (32 : Nat) ≠ 35 ∧
    [32, 10].headD 0 = 32 ∧ [32, 10].getLastD 0 = 10 ∧
    (CO_epoll_processGtw_stdio [32, 10] 100 true).1 = [[32, 10]] ∧
    (CO_epoll_processGtw_stdio [32, 10] 100 true).1 ≠ [gtwSequence, [32, 10]] := by
  decide

/-- C9 (amended): in stdio gateway mode a chunk whose first byte is an
opening bracket is passed to the parser unmodified; a chunk whose first byte
is a hash or not a graphical character (isgraph: space and non-printable
bytes excluded) is passed through unmodified; any other chunk that ends with
a newline, arrives with the fresh-command flag set and fits the four extra
bytes has exactly "[0] " written once before it; afterwards the fresh-command
flag equals whether the chunk ended with a newline. -/
theorem processGtw_stdio_prefix_amended (buf : List Nat) (space : Nat) (fresh : Bool) (_hne : buf ≠ []) :
    (buf.headD 0 = 91 → (CO_epoll_processGtw_stdio buf space fresh).1 = [buf]) ∧
    ((buf.headD 0 = 35 ∨ isgraphB (buf.headD 0) = false) →
      (CO_epoll_processGtw_stdio buf space fresh).1 = [buf]) ∧
    (buf.headD 0 ≠ 91 → buf.headD 0 ≠ 35 → isgraphB (buf.headD 0) = true →
      buf.getLastD 0 = 10 → fresh = true → 4 ≤ space - buf.length →
      (CO_epoll_processGtw_stdio buf space fresh).1 = [gtwSequence, buf]) ∧
    ((CO_epoll_processGtw_stdio buf space fresh).2 = true ↔ buf.getLastD 0 = 10) := by
  refine ⟨?_, ?_, ?_, ?_⟩
  · intro h91
    unfold CO_epoll_processGtw_stdio
    simp only
    rw [if_neg]
    rintro ⟨hne, -⟩
    exact hne h91
  · intro hd
    unfold CO_epoll_processGtw_stdio
    simp only
    rw [if_neg]
    rintro ⟨-, -, hg, h35, -⟩
    rcases hd with hd | hd
    · exact h35 hd
    · rw [hd] at hg
      cases hg
  · intro h91 h35 hg hnl hfresh hspace
    unfold CO_epoll_processGtw_stdio
    simp only
    rw [if_pos ⟨h91, by simpa [gtwSequence] using hspace, hg, h35, hnl, hfresh⟩]
  · unfold CO_epoll_processGtw_stdio
    simp only
    simp

/-- Witness for C9: the chunk "a\n" with the fresh-command flag set gets the
"[0] " prefix written before it. -/
theorem processGtw_stdio_prefix_amended_witness :
    (CO_epoll_processGtw_stdio [97, 10] 100 true).1 = [gtwSequence, [97, 10]] ∧
    (CO_epoll_processGtw_stdio [97, 10] 100 true).2 = true := by
  have h := processGtw_stdio_prefix_amended [97, 10] 100 true (by decide)
  exact ⟨h.2.2.1 (by decide) (by decide) (by decide) (by decide) rfl (by decide),
    h.2.2.2.mpr (by decide)⟩

end CANopenLinux
